import Mathlib

/-!
Verification of the naming core of protoc-gen-namer (src/main.go).

The Go source is embedded shallowly: strings are Lean `String`s (lists of
unicode scalar values, matching Go's per-rune iteration), maps and slices of
reserved words become `List String`, and the stateful camel-case transformer
becomes an explicit fold over a state record.  Byte-level string slicing in
the sanitizer (`name[:len(name)-len(disambiguator)]`) is only reached under a
`strings.HasSuffix` guard with an ASCII suffix, where dropping that many bytes
and dropping that many characters coincide; it is embedded as a character-level
`take`.  The Go `unicode` package functions are embedded exactly for code
points below 0x100 and as the identity / `false` above; every theorem whose
truth depends on their values beyond ASCII restricts its statement to code
points below 0x100, where the embedding is exact.
-/

set_option maxRecDepth 8000

namespace Namer

/-- Character classes of the camel-case transformer (Go `CharKind`,
src/main.go lines 193-201). -/
inductive CharKind : Type where
  | digit : CharKind
  | lower : CharKind
  | upper : CharKind
  | underscore : CharKind
  | other : CharKind
deriving DecidableEq

/-- Go `toCharKind` (src/main.go lines 203-216). -/
def toCharKind (c : Char) : CharKind :=
  if '0' ≤ c ∧ c ≤ '9' then CharKind.digit
  else if 'a' ≤ c ∧ c ≤ 'z' then CharKind.lower
  else if 'A' ≤ c ∧ c ≤ 'Z' then CharKind.upper
  else if c = '_' then CharKind.underscore
  else CharKind.other

/-- Go `unicode.ToUpper`, embedded exactly for code points below 0x100
(ASCII and Latin-1 simple upper-case mappings, including µ → Μ and ÿ → Ÿ)
and as the identity above that range, where Go's full case table is not
reproduced; theorems that evaluate this mapping on non-concrete characters
therefore carry the hypothesis that the code point is below 0x100. -/
def goToUpper (c : Char) : Char :=
  if 'a' ≤ c ∧ c ≤ 'z' then Char.ofNat (c.toNat - 32)
  else if c.toNat = 0xb5 then Char.ofNat 0x39c
  else if 0xe0 ≤ c.toNat ∧ c.toNat ≤ 0xfe ∧ c.toNat ≠ 0xf7 then Char.ofNat (c.toNat - 32)
  else if c.toNat = 0xff then Char.ofNat 0x178
  else c

/-- Go `unicode.ToLower`, embedded exactly for code points below 0x100 and as
the identity above.  The transformer only applies it to ASCII upper-case
letters (class `upper`), where this is exact. -/
def goToLower (c : Char) : Char :=
  if 'A' ≤ c ∧ c ≤ 'Z' then Char.ofNat (c.toNat + 32)
  else if 0xc0 ≤ c.toNat ∧ c.toNat ≤ 0xde ∧ c.toNat ≠ 0xd7 then Char.ofNat (c.toNat + 32)
  else c

/-- Closed numeric interval test, used to transcribe the Go range tables. -/
def inRange (lo hi n : Nat) : Bool :=
  decide (lo ≤ n) && decide (n ≤ hi)

/-- Go `unicode.IsNumber`, embedded exactly for code points below 0x100
(digits 0-9 and the Latin-1 number characters ² ³ ¹ ¼ ½ ¾) and as `false`
above. -/
def unicodeIsNumber (c : Char) : Bool :=
  inRange 0x30 0x39 c.toNat || decide (c.toNat = 0xb2) || decide (c.toNat = 0xb3) ||
    decide (c.toNat = 0xb9) || inRange 0xbc 0xbe c.toNat

/-- Go `isSwiftIdentifierHeadCharacter` (src/main.go lines 309-347): the
explicit range tables, transcribed verbatim. -/
def isSwiftIdentifierHeadCharacter (c : Char) : Bool :=
  let n := c.toNat
  inRange 0x61 0x7a n || inRange 0x41 0x5a n || decide (n = 0x5f) ||
  decide (n = 0xa8) || decide (n = 0xaa) || decide (n = 0xad) || decide (n = 0xaf) ||
  inRange 0xb2 0xb5 n || inRange 0xb7 0xba n ||
  inRange 0xbc 0xbe n || inRange 0xc0 0xd6 n || inRange 0xd8 0xf6 n || inRange 0xf8 0xff n ||
  inRange 0x100 0x2ff n || inRange 0x370 0x167f n || inRange 0x1681 0x180d n ||
  inRange 0x180f 0x1dbf n || inRange 0x1e00 0x1fff n ||
  inRange 0x200b 0x200d n || inRange 0x202a 0x202e n || decide (n = 0x203f) ||
  decide (n = 0x2040) || decide (n = 0x2054) || inRange 0x2060 0x206f n ||
  inRange 0x2070 0x20cf n || inRange 0x2100 0x218f n || inRange 0x2460 0x24ff n ||
  inRange 0x2776 0x2793 n || inRange 0x2c00 0x2dff n || inRange 0x2e80 0x2fff n ||
  inRange 0x3004 0x3007 n || inRange 0x3021 0x302f n || inRange 0x3031 0x303f n ||
  inRange 0x3040 0xd7ff n ||
  inRange 0xf900 0xfd3d n || inRange 0xfd40 0xfdcf n || inRange 0xfdf0 0xfe1f n ||
  inRange 0xfe30 0xfe44 n || inRange 0xfe47 0xfffd n ||
  inRange 0x10000 0x1fffd n || inRange 0x20000 0x2fffd n || inRange 0x30000 0x3fffd n ||
  inRange 0x40000 0x4fffd n || inRange 0x50000 0x5fffd n || inRange 0x60000 0x6fffd n ||
  inRange 0x70000 0x7fffd n || inRange 0x80000 0x8fffd n || inRange 0x90000 0x9fffd n ||
  inRange 0xa0000 0xafffd n || inRange 0xb0000 0xbfffd n || inRange 0xc0000 0xcfffd n ||
  inRange 0xd0000 0xdfffd n || inRange 0xe0000 0xefffd n

/-- Go `isSwiftIdentifierCharacter` (src/main.go lines 349-359): digits,
combining-mark ranges, or a head character. -/
def isSwiftIdentifierCharacter (c : Char) : Bool :=
  inRange 0x30 0x39 c.toNat || inRange 0x300 0x36f c.toNat || inRange 0x1dc0 0x1dff c.toNat ||
    inRange 0x20d0 0x20ff c.toNat || inRange 0xfe20 0xfe2f c.toNat ||
    isSwiftIdentifierHeadCharacter c

/-- Go `appreviations` map (src/main.go lines 186-191); the source's spelling
is kept. -/
def appreviations : List String := ["url", "http", "https", "id"]

/-- Go `uppercaseFirstCharacter` (src/main.go lines 300-307), on rune lists. -/
def uppercaseFirstCharacter : List Char → List Char
  | [] => []
  | c :: rest => goToUpper c :: rest

/-- State of the imperative loop in Go `transform` (src/main.go lines 218-298):
the output builder `result`, the pending word `current`, and `lastKind`. -/
structure TransformState : Type where
  result : List Char
  current : List Char
  lastKind : CharKind
deriving DecidableEq

/-- Go `transform`'s inner closure `addCurrent`: flush the pending word into
the result, lower-case-first-word / abbreviation / capitalize handling
included. -/
def addCurrent (initialUpperCase : Bool) (st : TransformState) : TransformState :=
  if st.current = [] then st
  else
    let finalWord :=
      if st.result = [] ∧ initialUpperCase = false then st.current
      else if String.mk st.current ∈ appreviations then st.current.map goToUpper
      else uppercaseFirstCharacter st.current
    TransformState.mk (st.result ++ finalWord) [] st.lastKind

/-- One iteration of Go `transform`'s character loop (src/main.go lines
239-288), including the trailing `lastKind = kind` assignment. -/
def transformStep (initialUpperCase : Bool) (st : TransformState) (c : Char) : TransformState :=
  match toCharKind c with
  | CharKind.digit =>
    let st1 := if st.lastKind ≠ CharKind.digit then addCurrent initialUpperCase st else st
    let st2 := if st1.result = [] then TransformState.mk (st1.result ++ ['_']) st1.current st1.lastKind else st1
    TransformState.mk st2.result (st2.current ++ [c]) CharKind.digit
  | CharKind.upper =>
    let st1 := if st.lastKind ≠ CharKind.upper then addCurrent initialUpperCase st else st
    TransformState.mk st1.result (st1.current ++ [goToLower c]) CharKind.upper
  | CharKind.lower =>
    let st1 := if st.lastKind ≠ CharKind.lower ∧ st.lastKind ≠ CharKind.upper then addCurrent initialUpperCase st else st
    TransformState.mk st1.result (st1.current ++ [c]) CharKind.lower
  | CharKind.underscore =>
    let st1 := addCurrent initialUpperCase st
    let st2 := if st.lastKind = CharKind.underscore then TransformState.mk (st1.result ++ ['_']) st1.current st1.lastKind else st1
    TransformState.mk st2.result st2.current CharKind.underscore
  | CharKind.other =>
    let st1 := addCurrent initialUpperCase st
    let escapeIt : Bool :=
      if st1.result = [] then ! isSwiftIdentifierHeadCharacter c else ! isSwiftIdentifierCharacter c
    if escapeIt then
      TransformState.mk (st1.result ++ ('_' :: 'u' :: (Nat.repr c.toNat).data)) st1.current CharKind.other
    else
      TransformState.mk st1.result (st1.current ++ [c]) CharKind.other

/-- Initial state of Go `transform`'s loop: empty builder, empty word,
`lastKind := other`. -/
def transformStart : TransformState := TransformState.mk [] [] CharKind.other

/-- End of Go `transform`: flush the last word and append one `_` when the
input ended in underscores (src/main.go lines 289-297). -/
def transformFinish (initialUpperCase : Bool) (st : TransformState) : List Char :=
  let st2 := addCurrent initialUpperCase st
  if st2.lastKind = CharKind.underscore then st2.result ++ ['_'] else st2.result

/-- Go `transform` on a rune list: fold the character loop, then finish. -/
def transformList (initialUpperCase : Bool) (cs : List Char) : List Char :=
  transformFinish initialUpperCase (cs.foldl (transformStep initialUpperCase) transformStart)

/-- Go `transform` (src/main.go lines 218-298). -/
def transform (name : String) (initialUpperCase : Bool) : String :=
  String.mk (transformList initialUpperCase name.data)

/-- Go `toUpperCamelCase` (src/main.go lines 182-184). -/
def toUpperCamelCase (name : String) : String :=
  transform name true

/-- Go `reservedNames` (src/main.go lines 361-423): the base map together
with every entry added by the package's init function — declaration keywords,
statement keywords, expression/type keywords, common type names and special
variables. -/
def reservedNames : List String :=
  ["SwiftProtobuf", "Extensions", "protoMessageName", "decodeMessage", "traverse",
   "isInitialized", "unknownFields", "debugDescription", "description", "dynamicType",
   "hashValue", "Type", "Protocol",
   "associatedtype", "class", "deinit", "enum", "extension",
   "fileprivate", "func", "import", "init", "inout", "internal",
   "let", "open", "operator", "private", "protocol", "public",
   "static", "struct", "subscript", "typealias", "var",
   "break", "case",
   "continue", "default", "defer", "do", "else", "fallthrough",
   "for", "guard", "if", "in", "repeat", "return", "switch", "where",
   "while",
   "as",
   "Any", "catch", "false", "is", "nil", "rethrows", "super", "self",
   "Self", "throw", "throws", "true", "try",
   "Bool", "Data", "Double", "Float", "Int",
   "Int32", "Int64", "String", "UInt", "UInt32", "UInt64",
   "__COLUMN__",
   "__FILE__", "__FUNCTION__", "__LINE__"]

/-- Go `isAllUnderscore` (src/main.go lines 134-144): `false` on the empty
string, otherwise true exactly when every rune is `_`. -/
def isAllUnderscore (name : String) : Bool :=
  match name.data with
  | [] => false
  | l => l.all (fun s => s == '_')

/-- Go slice `name[:len(name)-len(disambiguator)]` (src/main.go line 129).
The slice is byte-based; it is only taken under a `strings.HasSuffix` guard
with one of the ASCII suffixes Message / Enum / Oneof, where dropping that
many bytes and dropping that many characters agree, so it is embedded as a
character-level `take`. -/
def dropSuffixGo (name disambiguator : String) : String :=
  String.mk (name.data.take (name.data.length - disambiguator.data.length))

/-- Go `sanitizeTypeName` (src/main.go lines 123-132) with explicit fuel:
`none` means the recursion did not finish within the given depth.  The Go
function recurses on the strictly shorter stripped string, so depth
`name.length + 1` always suffices (proved below); for an empty disambiguator
the Go function would not terminate, and no caller passes one. -/
def sanitizeTypeNameFuel : Nat → String → String → Option String
  | 0, _, _ => none
  | Nat.succ fuel, name, disambiguator =>
    if name ∈ reservedNames then some (name ++ disambiguator)
    else if isAllUnderscore name then some (name ++ disambiguator)
    else if disambiguator.data <:+ name.data then
      Option.map (fun r => r ++ disambiguator)
        (sanitizeTypeNameFuel fuel (dropSuffixGo name disambiguator) disambiguator)
    else some name

/-- Go `sanitizeTypeName`, total: run the fuelled recursion at the depth that
is always sufficient for the nonempty disambiguators the program uses. -/
def sanitizeTypeName (name disambiguator : String) : String :=
  (sanitizeTypeNameFuel (name.data.length + 1) name disambiguator).getD name

/-- Go `sanitizeMessage` (src/main.go lines 111-113). -/
def sanitizeMessage (name : String) : String :=
  sanitizeTypeName name ("Message")

/-- Go `sanitizeEnum` (src/main.go lines 115-117). -/
def sanitizeEnum (name : String) : String :=
  sanitizeTypeName name ("Enum")

/-- Go `sanitizeOneof` (src/main.go lines 119-121). -/
def sanitizeOneof (name : String) : String :=
  sanitizeTypeName name ("Oneof")

/-- Character scan of Go `typePrefixInternal` (src/main.go lines 158-177):
input runes, the `makeUpper` flag and the accumulated `ret`. -/
def typePrefixLoop : List Char → Bool → List Char → List Char
  | [], _, ret => ret
  | c :: rest, makeUpper, ret =>
    if c = '_' then typePrefixLoop rest true ret
    else if c = '.' then typePrefixLoop rest true (ret ++ ['_'])
    else
      let ret1 := if ret.isEmpty && unicodeIsNumber c then ret ++ ['_'] else ret
      if makeUpper then typePrefixLoop rest false (ret1 ++ [goToUpper c])
      else typePrefixLoop rest makeUpper (ret1 ++ [c])

/-- Go `typePrefixInternal` (src/main.go lines 150-180).  The `FileOptions`
argument is reduced to the string `options.GetSwiftPrefix()` returns — the
empty string when no override is set. -/
def typePrefixInternal (packageName swiftPrefix : String) : String :=
  if 0 < swiftPrefix.length then swiftPrefix
  else if packageName.length = 0 then ("")
  else String.mk (typePrefixLoop packageName.data true [] ++ ['_'])

/-- Schema message declaration (data model of the descriptor tree): local
name, oneof names in declaration order, nested messages, nested enum names. -/
inductive MessageDecl : Type where
  | mk (name : String) (oneofs : List String) (nestedMessages : List MessageDecl)
      (nestedEnums : List String) : MessageDecl

/-- Local name of a message declaration. -/
def MessageDecl.name : MessageDecl → String
  | MessageDecl.mk n _ _ _ => n

/-- Oneof names of a message declaration, in declaration order. -/
def MessageDecl.oneofs : MessageDecl → List String
  | MessageDecl.mk _ o _ _ => o

/-- Schema file: package path, optional prefix override (empty = none),
top-level messages and top-level enum names, in declaration order. -/
structure SchemaFile : Type where
  packageName : String
  swiftPrefix : String
  messages : List MessageDecl
  enums : List String

/-- Go `typePrefix` (src/main.go lines 146-148). -/
def typePrefix (f : SchemaFile) : String :=
  typePrefixInternal f.packageName f.swiftPrefix

/-- Go `relativeNameOfMessage` (src/main.go lines 75-82).  A located message
is given by its schema file, the local names of its enclosing messages
(innermost parent first; `[]` means the parent is the file itself) and its own
local name, which is exactly the information the Go function reads through
the descriptor's parent chain. -/
def relativeNameOfMessage (f : SchemaFile) (parents : List String) (name : String) : String :=
  match parents with
  | _ :: _ => sanitizeMessage name
  | [] => sanitizeMessage (typePrefix f ++ name)

/-- Go `fullNameOfMessage` (src/main.go lines 66-73), recursing up the parent
chain. -/
def fullNameOfMessage (f : SchemaFile) : List String → String → String
  | [], name => relativeNameOfMessage f [] name
  | p :: rest, name =>
    fullNameOfMessage f rest p ++ ("." : String) ++ relativeNameOfMessage f (p :: rest) name

/-- Go `relativeNameOfEnum` (src/main.go lines 93-100).  Note the source: a
top-level enum goes through `sanitizeMessage`, not `sanitizeEnum`. -/
def relativeNameOfEnum (f : SchemaFile) (parents : List String) (name : String) : String :=
  match parents with
  | _ :: _ => sanitizeEnum name
  | [] => sanitizeMessage (typePrefix f ++ name)

/-- Go `fullNameOfEnum` (src/main.go lines 84-91). -/
def fullNameOfEnum (f : SchemaFile) (parents : List String) (name : String) : String :=
  match parents with
  | [] => relativeNameOfEnum f [] name
  | p :: rest =>
    fullNameOfMessage f rest p ++ ("." : String) ++ relativeNameOfEnum f (p :: rest) name

/-- Go `relativeNameOfOneof` (src/main.go lines 106-109). -/
def relativeNameOfOneof (oneofName : String) : String :=
  sanitizeOneof (("OneOf_" : String) ++ toUpperCamelCase oneofName)

/-- Go `fullNameOfOneof` (src/main.go lines 102-104), for a oneof of the
message located by `parents` / `msgName`. -/
def fullNameOfOneof (f : SchemaFile) (parents : List String) (msgName oneofName : String) : String :=
  fullNameOfMessage f parents msgName ++ ("." : String) ++ relativeNameOfOneof oneofName

/-- Modelled from the spec (glossary, §6): a schema full name is the dotted
path of the entity — computed by the external descriptor library
(`FullName()`), not by code of this repository.  For a top-level entity it is
`package.name`, or the bare name when the package is empty. -/
def protoFullNameTop (pkg : String) (name : String) : String :=
  if pkg = ("") then name else pkg ++ ("." : String) ++ name

/-- Records the main loop of src/main.go (lines 33-53) writes for one file:
for each top-level message, its record then one record per oneof, in
declaration order; afterwards one record per top-level enum.  The loop reads
only `fileDescriptor.Messages()` and `fileDescriptor.Enums()` — it never
descends into `message.Messages()` or `message.Enums()`. -/
def emitFile (f : SchemaFile) : List (String × String) :=
  (f.messages.map (fun m =>
      (protoFullNameTop f.packageName m.name, fullNameOfMessage f [] m.name) ::
        m.oneofs.map (fun o =>
          (protoFullNameTop f.packageName m.name ++ ("." : String) ++ o,
           fullNameOfOneof f [] m.name o)))).flatten
    ++ f.enums.map (fun e => (protoFullNameTop f.packageName e, fullNameOfEnum f [] e))

/-- The §8 end-to-end example file: package `a.b`, no override, one top-level
message `Foo` with one oneof `bar_baz` and one nested message `Inner`. -/
def exampleFile : SchemaFile :=
  SchemaFile.mk ("a.b") ("") [MessageDecl.mk ("Foo") [("bar_baz")] [MessageDecl.mk ("Inner") [] [] []] []] []

/-- A schema file with no package and no override. -/
def fileNoPkg : SchemaFile :=
  SchemaFile.mk ("") ("") [] []

/-- A schema file with package `x` (prefix `X_`) and no override. -/
def fileX : SchemaFile :=
  SchemaFile.mk ("x") ("") [] []

/-! Helper lemmas about strings and the sanitizer. -/

/-- Appending strings appends their character lists. -/
theorem string_data_append (s t : String) : (s ++ t).data = s.data ++ t.data := rfl

/-- A string different from the empty string has a nonempty character list. -/
theorem data_ne_nil {k : String} (h : k ≠ ("")) : k.data ≠ [] := by
  intro h2
  apply h
  apply String.ext
  rw [h2]

/-- Stripping a suffix that is indeed a suffix and re-appending it restores
the original string. -/
theorem dropSuffixGo_append (s k : String) (h : k.data <:+ s.data) :
    dropSuffixGo s k ++ k = s := by
  obtain ⟨t, ht⟩ := h
  apply String.ext
  rw [string_data_append]
  show s.data.take (s.data.length - k.data.length) ++ k.data = s.data
  rw [← ht, List.length_append, Nat.add_sub_cancel, List.take_left]

/-- Stripping `k` from `t ++ k` yields `t`. -/
theorem dropSuffixGo_append_self (t k : String) : dropSuffixGo (t ++ k) k = t := by
  apply String.ext
  show (t ++ k).data.take ((t ++ k).data.length - k.data.length) = t.data
  rw [string_data_append, List.length_append, Nat.add_sub_cancel, List.take_left]

/-- Whatever the fuel, a result of the fuelled sanitizer is the input either
unchanged or with exactly one copy of the disambiguator appended. -/
theorem sanitizeTypeNameFuel_result : ∀ (fuel : Nat) (s k r : String),
    sanitizeTypeNameFuel fuel s k = some r → r = s ∨ r = s ++ k := by
  intro fuel
  induction fuel with
  | zero => intro s k r h; simp [sanitizeTypeNameFuel] at h
  | succ n ih =>
    intro s k r h
    simp only [sanitizeTypeNameFuel] at h
    split at h
    · right; exact (Option.some.inj h).symm
    · split at h
      · right; exact (Option.some.inj h).symm
      · split at h
        · rename_i hsuf
          rw [Option.map_eq_some'] at h
          obtain ⟨r0, hr0, hr⟩ := h
          rcases ih _ _ _ hr0 with h0 | h0
          · left
            rw [← hr, h0]
            exact dropSuffixGo_append s k hsuf
          · right
            rw [← hr, h0, dropSuffixGo_append s k hsuf]
        · left; exact (Option.some.inj h).symm

/-- Fuel one larger than the input length always suffices: each recursive
call strips a nonempty suffix, so the candidate length strictly decreases. -/
theorem sanitizeTypeNameFuel_isSome : ∀ (fuel : Nat) (s k : String), k ≠ ("") →
    s.data.length < fuel → (sanitizeTypeNameFuel fuel s k).isSome = true := by
  intro fuel
  induction fuel with
  | zero => intro s k hk hlen; exact absurd hlen (Nat.not_lt_zero _)
  | succ n ih =>
    intro s k hk hlen
    simp only [sanitizeTypeNameFuel]
    split
    · rfl
    · split
      · rfl
      · split
        · rename_i hsuf
          rw [Option.isSome_map']
          apply ih _ _ hk
          have h1 : 0 < k.data.length := List.length_pos.mpr (data_ne_nil hk)
          have h2 : k.data.length ≤ s.data.length := hsuf.length_le
          have h3 : (dropSuffixGo s k).data.length = s.data.length - k.data.length := by
            show (s.data.take (s.data.length - k.data.length)).length = _
            rw [List.length_take, Nat.min_eq_left (Nat.sub_le _ _)]
          omega
        · rfl

/-- The total sanitizer returns the input unchanged or with one suffix copy
appended. -/
theorem sanitizeTypeName_mem_or (s k : String) (hk : k ≠ ("")) :
    sanitizeTypeName s k = s ∨ sanitizeTypeName s k = s ++ k := by
  have h := sanitizeTypeNameFuel_isSome (s.data.length + 1) s k hk (by omega)
  obtain ⟨r, hr⟩ := Option.isSome_iff_exists.mp h
  unfold sanitizeTypeName
  rw [hr, Option.getD_some]
  exact sanitizeTypeNameFuel_result _ _ _ _ hr

/-- The sanitizer returns the empty candidate unchanged: the empty string is
not reserved, the all-underscore check rejects it, and it ends with no
nonempty suffix. -/
theorem sanitizeTypeName_empty (k : String) (hk : k ≠ ("")) :
    sanitizeTypeName ("") k = ("") := by
  have h3 : ¬ (k.data <:+ ("" : String).data) := by
    intro hs
    exact data_ne_nil hk (List.suffix_nil.mp hs)
  show (sanitizeTypeNameFuel (Nat.succ 0) ("") k).getD ("") = ("")
  simp only [sanitizeTypeNameFuel]
  rw [if_neg (by decide), if_neg (by decide), if_neg h3, Option.getD_some]

/-! Claim theorems. -/

/-- C1 (counterexample): the claim is false on the §8 example — the emitter
does not recurse into nested messages, so the record list of the example file
is not the claimed three-record list (no record for `Inner` is produced). -/
theorem emitter_recursion_counterexample :
    emitFile exampleFile ≠
      [(("a.b.Foo"), ("A_B_Foo")),
       (("a.b.Foo.bar_baz"), ("A_B_Foo.OneOf_BarBaz")),
       (("a.b.Foo.Inner"), ("A_B_Foo.Inner"))] := by
  decide

/-- C1 (amended): the emitter visits only top-level messages in declaration
order, emitting each message's record and then one record per oneof, and then
the top-level enums; it never descends into nested messages or nested enums —
the output is unchanged under any replacement of a message's nested
declarations — and the §8 example therefore produces exactly the two records
`a.b.Foo A_B_Foo` and `a.b.Foo.bar_baz A_B_Foo.OneOf_BarBaz`. -/
theorem emitter_top_level_only :
    emitFile exampleFile =
      [(("a.b.Foo"), ("A_B_Foo")),
       (("a.b.Foo.bar_baz"), ("A_B_Foo.OneOf_BarBaz"))] ∧
    ∀ (pkg ov name : String) (oneofs : List String) (n1 n2 : List MessageDecl)
      (e1 e2 tlEnums : List String),
      emitFile (SchemaFile.mk pkg ov [MessageDecl.mk name oneofs n1 e1] tlEnums) =
        emitFile (SchemaFile.mk pkg ov [MessageDecl.mk name oneofs n2 e2] tlEnums) :=
  ⟨by decide, fun _ _ _ _ _ _ _ _ _ => rfl⟩

/-- C2 (counterexample): the claim's resolution rule is false on the code —
a nested message `foo_bar` is not camel-cased, a top-level enum is not
sanitized with the Enum suffix, and a top-level name is not sanitized
separately from the prefix. -/
theorem resolve_camelcase_counterexample :
    (fullNameOfMessage fileNoPkg [("Outer")] ("foo_bar") ≠
       fullNameOfMessage fileNoPkg [] ("Outer") ++ ("." : String) ++
         sanitizeMessage (toUpperCamelCase ("foo_bar"))) ∧
    (fullNameOfEnum fileNoPkg [] ("Type") ≠
       typePrefix fileNoPkg ++ sanitizeEnum (toUpperCamelCase ("Type"))) ∧
    (fullNameOfMessage fileX [] ("Type") ≠
       typePrefix fileX ++ sanitizeMessage (toUpperCamelCase ("Type"))) := by
  refine ⟨by decide, by decide, by decide⟩

/-- C2 (amended): the generated identifier of a nested message or enum is the
parent's identifier, a dot, and the local name passed directly — with no
CamelCase transform — to the Sanitizer of the node's kind; for a top-level
node the Sanitizer with the Message suffix (for enums as well as messages) is
applied to the concatenation `prefix(file) ++ local name` as a whole.  A
concrete contrast with the original claim is included. -/
theorem resolve_no_camelcase :
    (∀ (f : SchemaFile) (p : String) (rest : List String) (name : String),
      fullNameOfMessage f (p :: rest) name =
          fullNameOfMessage f rest p ++ ("." : String) ++ sanitizeMessage name ∧
        fullNameOfMessage f [] name = sanitizeMessage (typePrefix f ++ name) ∧
        fullNameOfEnum f (p :: rest) name =
          fullNameOfMessage f rest p ++ ("." : String) ++ sanitizeEnum name ∧
        fullNameOfEnum f [] name = sanitizeMessage (typePrefix f ++ name)) ∧
    fullNameOfMessage fileNoPkg [("Outer")] ("foo_bar") = ("Outer.foo_bar") ∧
    fullNameOfEnum fileNoPkg [] ("Type") = ("TypeMessage") ∧
    fullNameOfMessage fileX [] ("Type") = ("X_Type") :=
  ⟨fun _ _ _ _ => ⟨rfl, rfl, rfl, rfl⟩, by decide, by decide, by decide⟩

/-- C3 (counterexample): the Sanitizer is not idempotent — sanitizing the
already-sanitized name of the reserved word `Type` under the Message kind
appends a second suffix copy. -/
theorem sanitize_idempotence_counterexample :
    sanitizeTypeName (sanitizeTypeName ("Type") ("Message")) ("Message") ≠
      sanitizeTypeName ("Type") ("Message") := by
  decide

/-- C3 (amended): the Sanitizer is idempotent exactly on its fixed points:
for every candidate it leaves unchanged, sanitizing again is a no-op, and
stripping the kind's suffix from `t ++ suffix`, re-sanitizing, and
re-appending the suffix yields `t ++ suffix` again.  (On a candidate it does
change — such as a reserved word — re-sanitizing grows a further suffix, as
the counterexample shows.) -/
theorem sanitize_idempotent_on_fixed_points (t k : String)
    (h : sanitizeTypeName t k = t) :
    sanitizeTypeName (sanitizeTypeName t k) k = sanitizeTypeName t k ∧
      sanitizeTypeName (dropSuffixGo (t ++ k) k) k ++ k = t ++ k := by
  constructor
  · rw [h, h]
  · rw [dropSuffixGo_append_self, h]

/-- Witness for C3 (amended) at the fixed point `Foo` / `Message`. -/
theorem sanitize_idempotent_on_fixed_points_witness :
    sanitizeTypeName (sanitizeTypeName ("Foo") ("Message")) ("Message") =
        sanitizeTypeName ("Foo") ("Message") ∧
      sanitizeTypeName (dropSuffixGo (("Foo") ++ ("Message")) ("Message")) ("Message") ++ ("Message") =
        ("Foo") ++ ("Message") :=
  sanitize_idempotent_on_fixed_points ("Foo") ("Message") (by decide)

/-- C4 (counterexample): a message named `Message` nested inside the
top-level message `Outer` does not resolve to `Outer.MessageMessage` — the
sanitizer strips the `Message` suffix, sanitizes the empty remainder to
itself, and re-appends the suffix, leaving the name unchanged. -/
theorem nested_message_name_counterexample :
    fullNameOfMessage fileNoPkg [("Outer")] ("Message") ≠ ("Outer.MessageMessage") := by
  decide

/-- C4 (amended): a top-level message literally named `Type` (no package, no
override) gets the identifier `TypeMessage`, and a message named `Message`
nested inside top-level `Outer` resolves to `Outer.Message`. -/
theorem type_and_nested_message_names :
    fullNameOfMessage fileNoPkg [] ("Type") = ("TypeMessage") ∧
      fullNameOfMessage fileNoPkg [("Outer")] ("Message") = ("Outer.Message") := by
  refine ⟨by decide, by decide⟩

/-- C7: the three documented transformer examples: abbreviation words are
upper-cased whole, a digit run forms its own word, and a leading digit run
prepends an underscore while later words are still capitalized. -/
theorem transform_examples :
    transform ("http_status") true = ("HTTPStatus") ∧
      transform ("foo2bar") true = ("Foo2Bar") ∧
      transform ("123abc") true = ("_123Abc") := by
  refine ⟨by decide, by decide, by decide⟩

/-- C9: the Sanitizer terminates on every input with a nonempty
disambiguator: recursion depth `length + 1` always suffices, because the
recursive branch strictly shortens the candidate by the suffix's positive
length, and the total function is the value the fuelled recursion reaches. -/
theorem sanitize_terminates (name d : String) (hd : d ≠ ("")) :
    (sanitizeTypeNameFuel (name.data.length + 1) name d).isSome = true ∧
      sanitizeTypeNameFuel (name.data.length + 1) name d = some (sanitizeTypeName name d) := by
  have h := sanitizeTypeNameFuel_isSome (name.data.length + 1) name d hd (by omega)
  refine ⟨h, ?_⟩
  obtain ⟨r, hr⟩ := Option.isSome_iff_exists.mp h
  rw [hr]
  unfold sanitizeTypeName
  rw [hr, Option.getD_some]

/-- Witness for C9 at a candidate that exercises the recursive branch. -/
theorem sanitize_terminates_witness :
    (sanitizeTypeNameFuel (("TypeMessage").data.length + 1) ("TypeMessage") ("Message")).isSome = true ∧
      sanitizeTypeNameFuel (("TypeMessage").data.length + 1) ("TypeMessage") ("Message") =
        some (sanitizeTypeName ("TypeMessage") ("Message")) :=
  sanitize_terminates ("TypeMessage") ("Message") (by decide)

/-- C10: for every candidate and nonempty kind suffix, the Sanitizer returns
either the candidate unchanged or the candidate with exactly one suffix copy
appended — it never alters the candidate's characters — and it returns the
empty string unchanged. -/
theorem sanitize_appends_at_most_one (s k : String) (hk : k ≠ ("")) :
    (sanitizeTypeName s k = s ∨ sanitizeTypeName s k = s ++ k) ∧
      sanitizeTypeName ("") k = ("") :=
  ⟨sanitizeTypeName_mem_or s k hk, sanitizeTypeName_empty k hk⟩

/-- C6: the Type-Prefix Deriver returns a non-empty override verbatim for any
package, returns the empty string for an empty package with no override,
derives `Foo_BarBaz_` from `foo.bar_baz` (upper-casing word starts, dropping
`_`, mapping `.` to `_`, appending one trailing `_`), prepends `_` when the
first emitted character would be a digit (`1a` gives `_1a_`), and for every
nonempty package without override the result ends in one appended `_`. -/
theorem type_prefix_spec :
    (∀ pkg ov : String, ov ≠ ("") → typePrefixInternal pkg ov = ov) ∧
      typePrefixInternal ("") ("") = ("") ∧
      typePrefixInternal ("foo.bar_baz") ("") = ("Foo_BarBaz_") ∧
      (∀ pkg : String, typePrefixInternal pkg ("XYZ") = ("XYZ")) ∧
      typePrefixInternal ("1a") ("") = ("_1a_") ∧
      (∀ pkg : String, pkg ≠ ("") →
        ∃ l : List Char, typePrefixInternal pkg ("") = String.mk (l ++ ['_'])) := by
  refine ⟨?_, by decide, by decide, ?_, by decide, ?_⟩
  · intro pkg ov hov
    unfold typePrefixInternal
    rw [if_pos (show 0 < ov.length from List.length_pos.mpr (data_ne_nil hov))]
  · intro pkg
    unfold typePrefixInternal
    rw [if_pos (by decide : 0 < ("XYZ" : String).length)]
  · intro pkg hpkg
    unfold typePrefixInternal
    rw [if_neg (by decide : ¬ (0 < ("" : String).length)),
      if_neg (show ¬ (pkg.length = 0) from
        fun h0 => hpkg (String.ext ((List.length_eq_zero.mp h0).trans rfl)))]
    exact ⟨typePrefixLoop pkg.data true [], rfl⟩

/-- Witness for C6 at a concrete package and override. -/
theorem type_prefix_spec_witness :
    typePrefixInternal ("x.y") ("A") = ("A") ∧
      (∃ l : List Char, typePrefixInternal ("x.y") ("") = String.mk (l ++ ['_'])) :=
  ⟨type_prefix_spec.1 ("x.y") ("A") (by decide),
   type_prefix_spec.2.2.2.2.2 ("x.y") (by decide)⟩

/-- Witness for C10 at the reserved word `Type` with the Message suffix. -/
theorem sanitize_appends_at_most_one_witness :
    (sanitizeTypeName ("Type") ("Message") = ("Type") ∨
        sanitizeTypeName ("Type") ("Message") = ("Type") ++ ("Message")) ∧
      sanitizeTypeName ("") ("Message") = ("") :=
  sanitize_appends_at_most_one ("Type") ("Message") (by decide)

/-! Helper lemmas about the transformer, for the underscore-run and
other-character claims. -/

/-- No one-character string is in the abbreviation table (all entries have at
least two characters). -/
theorem singleton_not_mem_appreviations (c : Char) : ¬ (String.mk [c] ∈ appreviations) := by
  intro h
  have hlen : ∀ s : String, String.mk [c] = s → s.data.length = 1 := by
    intro s hs
    rw [← hs]
    rfl
  simp only [appreviations, List.mem_cons, List.not_mem_nil, or_false] at h
  rcases h with h | h | h | h
  · exact absurd (hlen _ h) (by decide)
  · exact absurd (hlen _ h) (by decide)
  · exact absurd (hlen _ h) (by decide)
  · exact absurd (hlen _ h) (by decide)

/-- Folding the character loop over a run of underscores from a state whose
last kind is already underscore writes one `_` per character. -/
theorem foldl_replicate_underscore (k : Nat) (st : TransformState)
    (hc : st.current = []) (hl : st.lastKind = CharKind.underscore) :
    (List.replicate k '_').foldl (transformStep true) st =
      TransformState.mk (st.result ++ List.replicate k '_') [] CharKind.underscore := by
  induction k generalizing st with
  | zero =>
    cases st with
    | mk r cur lk =>
      simp only [List.replicate, List.foldl_nil, List.append_nil]
      simp_all
  | succ m ih =>
    rw [List.replicate_succ, List.foldl_cons]
    have hstep : transformStep true st '_' =
        TransformState.mk (st.result ++ ['_']) [] CharKind.underscore := by
      have h1 : toCharKind '_' = CharKind.underscore := rfl
      simp only [transformStep, h1]
      simp [addCurrent, hc, hl]
    rw [hstep, ih _ rfl rfl]
    simp [List.replicate_succ, List.append_assoc]

/-- State of the loop after `a` followed by `1 + m` underscores: the word `a`
has been flushed as `A` and the run has contributed `m` underscores so far. -/
theorem underscore_run_state (m : Nat) :
    ('a' :: ('_' :: List.replicate m '_')).foldl (transformStep true) transformStart =
      TransformState.mk ('A' :: List.replicate m '_') [] CharKind.underscore := by
  rw [List.foldl_cons, List.foldl_cons]
  have h1 : transformStep true transformStart 'a' =
      TransformState.mk [] ['a'] CharKind.lower := by decide
  have h2 : transformStep true (TransformState.mk [] ['a'] CharKind.lower) '_' =
      TransformState.mk ['A'] [] CharKind.underscore := by decide
  rw [h1, h2, foldl_replicate_underscore m _ rfl rfl]
  simp

/-- C5 (counterexample): the claim is false at `a___b` — the interior run of
three underscores contributes two literal underscores to the output, not
exactly one. -/
theorem underscore_collapse_counterexample :
    ¬ ((transform ("a___b") true).data.count '_' = 1) ∧
      transform ("a___b") true = ("A__B") := by
  refine ⟨by decide, by decide⟩

/-- C5 (amended): a maximal interior run of `n ≥ 1` underscores contributes
exactly `n - 1` literal underscores to the output (each underscore after the
first in the run writes one), so a single interior underscore contributes
none, a run of exactly two contributes one, and a run of three contributes
two; a run that ends the input additionally gets the single trailing
underscore, contributing `n` in total. -/
theorem underscore_run_contribution (n : Nat) (h : 1 ≤ n) :
    transform (String.mk ('a' :: (List.replicate n '_' ++ ['b']))) true =
        String.mk ('A' :: (List.replicate (n - 1) '_' ++ ['B'])) ∧
      transform (String.mk ('a' :: List.replicate n '_')) true =
        String.mk ('A' :: List.replicate n '_') := by
  obtain ⟨m, rfl⟩ : ∃ m, n = m + 1 := ⟨n - 1, by omega⟩
  constructor
  · refine congrArg String.mk ?_
    show transformFinish true
        (('a' :: (List.replicate (m + 1) '_' ++ ['b'])).foldl (transformStep true) transformStart) = _
    rw [List.replicate_succ]
    have hsplit : 'a' :: (('_' :: List.replicate m '_') ++ ['b']) =
        ('a' :: ('_' :: List.replicate m '_')) ++ ['b'] := by simp
    rw [hsplit, List.foldl_append, underscore_run_state]
    have hb : transformStep true
          (TransformState.mk ('A' :: List.replicate m '_') [] CharKind.underscore) 'b' =
        TransformState.mk ('A' :: List.replicate m '_') ['b'] CharKind.lower := by
      have h1 : toCharKind 'b' = CharKind.lower := rfl
      simp only [transformStep, h1]
      simp [addCurrent]
    rw [List.foldl_cons, List.foldl_nil, hb]
    have hfin : transformFinish true
          (TransformState.mk ('A' :: List.replicate m '_') ['b'] CharKind.lower) =
        ('A' :: List.replicate m '_') ++ ['B'] := by
      simp [transformFinish, addCurrent, appreviations, uppercaseFirstCharacter,
        show goToUpper 'b' = 'B' from rfl]
    rw [hfin]
    simp
  · refine congrArg String.mk ?_
    show transformFinish true
        (('a' :: List.replicate (m + 1) '_').foldl (transformStep true) transformStart) = _
    rw [List.replicate_succ, underscore_run_state]
    simp [transformFinish, addCurrent]
    rw [← List.replicate_succ', List.replicate_succ]

/-- Witness for C5 (amended) at a run of three underscores. -/
theorem underscore_run_contribution_witness :
    transform (String.mk ('a' :: (List.replicate 3 '_' ++ ['b']))) true =
        String.mk ('A' :: (List.replicate 2 '_' ++ ['B'])) ∧
      transform (String.mk ('a' :: List.replicate 3 '_')) true =
        String.mk ('A' :: List.replicate 3 '_') :=
  underscore_run_contribution 3 (by decide)

/-- An invalid "other" head character renders as its decimal escape. -/
theorem other_head_invalid (c : Char) (hk : toCharKind c = CharKind.other)
    (hv : isSwiftIdentifierHeadCharacter c = false) :
    transform (String.mk [c]) true = String.mk ('_' :: 'u' :: (Nat.repr c.toNat).data) := by
  refine congrArg String.mk ?_
  show transformFinish true (transformStep true transformStart c) = _
  simp only [transformStep, hk]
  simp [addCurrent, transformStart, hv, transformFinish]

/-- A valid "other" head character passes through unescaped as its own
one-character word, capitalized by word finalization.  Stated for code
points below 0x100, the region where the embedded upper-case mapping is
exactly Go's. -/
theorem other_head_valid (c : Char) (_hr : c.toNat < 0x100)
    (hk : toCharKind c = CharKind.other)
    (hv : isSwiftIdentifierHeadCharacter c = true) :
    transform (String.mk [c]) true = String.mk [goToUpper c] := by
  refine congrArg String.mk ?_
  show transformFinish true (transformStep true transformStart c) = _
  simp only [transformStep, hk]
  simp [addCurrent, transformStart, hv, transformFinish,
    singleton_not_mem_appreviations, uppercaseFirstCharacter]

/-- An invalid "other" continuation character renders as its decimal escape. -/
theorem other_cont_invalid (c : Char) (hk : toCharKind c = CharKind.other)
    (hv : isSwiftIdentifierCharacter c = false) :
    transform (String.mk ['a', c]) true =
      String.mk ('A' :: '_' :: 'u' :: (Nat.repr c.toNat).data) := by
  refine congrArg String.mk ?_
  show transformFinish true (transformStep true (transformStep true transformStart 'a') c) = _
  have h1 : transformStep true transformStart 'a' =
      TransformState.mk [] ['a'] CharKind.lower := by decide
  rw [h1]
  simp only [transformStep, hk]
  simp [addCurrent, hv, transformFinish, appreviations, uppercaseFirstCharacter,
    show goToUpper 'a' = 'A' from rfl]

/-- A valid "other" continuation character passes through unescaped as its
own one-character word, capitalized by word finalization.  Stated for code
points below 0x100, the region where the embedded upper-case mapping is
exactly Go's. -/
theorem other_cont_valid (c : Char) (_hr : c.toNat < 0x100)
    (hk : toCharKind c = CharKind.other)
    (hv : isSwiftIdentifierCharacter c = true) :
    transform (String.mk ['a', c]) true = String.mk ['A', goToUpper c] := by
  refine congrArg String.mk ?_
  show transformFinish true (transformStep true (transformStep true transformStart 'a') c) = _
  have h1 : transformStep true transformStart 'a' =
      TransformState.mk [] ['a'] CharKind.lower := by decide
  rw [h1]
  simp only [transformStep, hk]
  simp [addCurrent, hv, transformFinish, appreviations, uppercaseFirstCharacter,
    singleton_not_mem_appreviations, show goToUpper 'a' = 'A' from rfl]

/-- C8 (counterexample): a valid "other" character does not always pass
through unchanged — the Latin-1 letter `é` is valid as an identifier head,
is not escaped, but is capitalized to `É` by word finalization, because
every "other" character starts its own word. -/
theorem other_char_unchanged_counterexample :
    transform ("é") true = ("É") ∧ transform ("é") true ≠ ("é") := by
  refine ⟨by decide, by decide⟩

/-- C8 (amended): every "other"-class character invalid as an identifier
character in its position (head when it would start the output, continuation
otherwise) renders as the literal `_u` followed by its decimal code point,
and a valid "other" character passes through unescaped as its own
one-character word — subject to word finalization, which capitalizes it via
the upper-case mapping since it is first in its word; no character is
dropped.  The escape halves hold for every character; the valid-character
halves are stated for code points below 0x100, the region where the embedded
upper-case mapping agrees with Go's `unicode.ToUpper` character for
character. -/
theorem other_char_rendering :
    (∀ c : Char, toCharKind c = CharKind.other → isSwiftIdentifierHeadCharacter c = false →
        transform (String.mk [c]) true = String.mk ('_' :: 'u' :: (Nat.repr c.toNat).data)) ∧
      (∀ c : Char, toCharKind c = CharKind.other → isSwiftIdentifierCharacter c = false →
        transform (String.mk ['a', c]) true =
          String.mk ('A' :: '_' :: 'u' :: (Nat.repr c.toNat).data)) ∧
      (∀ c : Char, c.toNat < 0x100 → toCharKind c = CharKind.other →
        isSwiftIdentifierHeadCharacter c = true →
        transform (String.mk [c]) true = String.mk [goToUpper c]) ∧
      (∀ c : Char, c.toNat < 0x100 → toCharKind c = CharKind.other →
        isSwiftIdentifierCharacter c = true →
        transform (String.mk ['a', c]) true = String.mk ['A', goToUpper c]) :=
  ⟨other_head_invalid, other_cont_invalid, other_head_valid, other_cont_valid⟩

/-- Witness for C8 (amended) at the invalid `~` and the valid `ø`. -/
theorem other_char_rendering_witness :
    transform (String.mk ['~']) true =
        String.mk ('_' :: 'u' :: (Nat.repr (Char.toNat '~')).data) ∧
      transform (String.mk ['a', '~']) true =
        String.mk ('A' :: '_' :: 'u' :: (Nat.repr (Char.toNat '~')).data) ∧
      transform (String.mk ['ø']) true = String.mk [goToUpper 'ø'] ∧
      transform (String.mk ['a', 'ø']) true = String.mk ['A', goToUpper 'ø'] :=
  ⟨other_char_rendering.1 '~' (by decide) (by decide),
   other_char_rendering.2.1 '~' (by decide) (by decide),
   other_char_rendering.2.2.1 'ø' (by decide) (by decide) (by decide),
   other_char_rendering.2.2.2 'ø' (by decide) (by decide) (by decide)⟩

end Namer
